import Mathlib

/-
Verification of the appconf configuration-binding library.

Shallow embedding of `src/appconf`:
  * `Value` models the Python values that flow through the resolution
    engine: `Value.none` is Python `None`; `Value.list` is a plain Python
    `list`; `Value.listConfig` / `Value.dictConfig` are OmegaConf
    `ListConfig` / `DictConfig` nodes (a config tree is a `Value`);
    `Value.defaulted` is `providers.base.DefaultedValue`.
  * `Bind` mirrors `bind.Bind.__init__` / `__set_name__`.
  * `Provider` is a closed model of the `ConfigProvider` protocol: the two
    concrete providers of the repository (`ArgNamespaceProvider`,
    `OmegaConfProvider`) plus `Provider.custom` for any other
    implementation of the protocol (the protocol is open).
  * `AppConfig.resolveLoop` / `AppConfig.resolveBind` / `AppConfig.convert`
    mirror `app_config.AppConfig._resolve_bind` / `_convert`.
  * `OmegaConfig.set` mirrors `omegaconf/omega_config.py` `set`.
  * `OmegaConfigLoader.loadRawResolve` mirrors the interpolation-error
    handling of `omegaconf/loader.py` `_load_raw`; the external OmegaConf
    library calls (load, merge, resolve) are parameters.
  * A second, heap-instrumented copy of the resolution engine
    (`resolveLoopH` etc.) makes Python list object identity explicit, for
    the in-place `extend`/`append` mutation claim.
-/

namespace Appconf

/-- Python runtime values seen by the resolution engine.  `none` is Python
`None`.  `list` is a plain Python `list`; `listConfig`/`dictConfig` are
OmegaConf nodes; `defaulted` is the `DefaultedValue` marker wrapper. -/
inductive Value where
  | none : Value
  | bool : Bool → Value
  | int : Int → Value
  | str : String → Value
  | list : List Value → Value
  | listConfig : List Value → Value
  | dictConfig : List (String × Value) → Value
  | defaulted : Value → Value

/-- Python truthiness (`bool(x)`): `None`, `False`, `0`, `""` and empty
containers are falsy; a `DefaultedValue` instance defines neither
`__bool__` nor `__len__`, so it is always truthy. -/
def Value.truthy : Value → Bool
  | Value.none => false
  | Value.bool b => b
  | Value.int n => n != 0
  | Value.str s => s != ""
  | Value.list xs => !xs.isEmpty
  | Value.listConfig xs => !xs.isEmpty
  | Value.dictConfig es => !es.isEmpty
  | Value.defaulted _ => true

/-- Python `a or b`: returns `a` when `a` is truthy, else `b`. -/
def pyOr (a b : Value) : Value := if a.truthy then a else b

/-- `value is None` check. -/
def Value.isNone : Value → Bool
  | Value.none => true
  | _ => false

/-- A "real" resolved value: neither `None` nor a `DefaultedValue` marker. -/
def Value.isRealValue : Value → Bool
  | Value.none => false
  | Value.defaulted _ => false
  | _ => true

/-- `isinstance(v, (list, ListConfig))`. -/
def Value.isListLike : Value → Bool
  | Value.list _ => true
  | Value.listConfig _ => true
  | _ => false

/-- Lookup in an insertion-ordered association list; models reading a
Python `dict` (`d.get(k)` distinguishes a missing key, `Option.none`,
from a key stored with value `None`, `some Value.none`). -/
def assocFind {α : Type} (l : List (String × α)) (k : String) : Option α :=
  (l.find? (fun kv => kv.1 == k)).map (fun kv => kv.2)

/-- Python `d.get(k)`: `None` when the key is absent. -/
def dictGet (l : List (String × Value)) (k : String) : Value :=
  (assocFind l k).getD Value.none

/-- Python `d[k] = v` on an insertion-ordered dict: overwrite in place or
append a new entry. -/
def assocSet {α : Type} (l : List (String × α)) (k : String) (v : α) :
    List (String × α) :=
  match l with
  | [] => [(k, v)]
  | kv :: rest => if kv.1 == k then (k, v) :: rest else kv :: assocSet rest k v

/-- Python `key.split('.')` on the character level (always at least one
segment; empty segments preserved). -/
def splitDotsGo : List Char → List String
  | [] => [""]
  | c :: cs =>
    match splitDotsGo cs with
    | [] => [""]
    | hd :: tl =>
      if c = '.' then "" :: hd :: tl else String.mk (c :: hd.data) :: tl

def splitDots (s : String) : List String := splitDotsGo s.data

/-- Python `'.'.join(parts)`. -/
def joinDots : List String → String
  | [] => ""
  | [s] => s
  | s :: rest => s ++ "." ++ joinDots rest

/-- The list of path segments with segment `hi` wrapped in `**...**`
(the body of `highlight_key` in `OmegaConfig.set`). -/
def starParts : List String → Nat → List String
  | [], _ => []
  | p :: ps, 0 => ("**" ++ p ++ "**") :: ps
  | p :: ps, Nat.succ j => p :: starParts ps j

/-- `highlight_key(parts, i)` from `OmegaConfig.set`: the full dotted key
with the offending segment wrapped in `**...**`. -/
def highlightKey (parts : List String) (hi : Nat) : String :=
  joinDots (starParts parts hi)

/-- Digit-string accumulator for `parseIndex`. -/
def parseNatGo : List Char → Nat → Option Nat
  | [], acc => some acc
  | c :: cs, acc =>
    if c.isDigit then parseNatGo cs (acc * 10 + (c.toNat - 48)) else Option.none

/-- Python `int(part)` as used on path segments: an optional minus sign
followed by decimal digits (Python also strips whitespace and accepts
`+`/underscores, which dotted config keys do not use here). -/
def parseIndex (s : String) : Option Int :=
  match s.data with
  | [] => Option.none
  | '-' :: rest =>
    if rest.isEmpty then Option.none
    else (parseNatGo rest 0).map (fun n => -(n : Int))
  | cs => (parseNatGo cs 0).map (fun n => (n : Int))

/-- The `Bind` descriptor (`bind.py`).  `converter` is the caller-supplied
pure conversion function; `default` is the static default (`Value.none`
models an absent default, i.e. Python `None`); `property_name` and
`cache_attr` are populated by `__set_name__`. -/
structure Bind where
  config_path : String
  arg_key : Option String
  property_name : Option String
  action : Option String
  converter : Option (Value → Value)
  default : Value

/-- `Bind.__init__`: `property_name` starts out unset. -/
def Bind.make (config_path : String) (arg_key : Option String)
    (action : Option String) (converter : Option (Value → Value))
    (default : Value) : Bind :=
  { config_path := config_path, arg_key := arg_key,
    property_name := Option.none, action := action,
    converter := converter, default := default }

/-- `Bind._cache_attr` as computed by `__set_name__` (`some` exactly when
the descriptor is bound to a declared property). -/
def Bind.cache_attr (b : Bind) : Option String :=
  b.property_name.map (fun n => "_bind_cache_" ++ n)

/-- `Bind.__set_name__`: record the declared property name and default the
arg key to it. -/
def Bind.setName (b : Bind) (name : String) : Bind :=
  { b with property_name := some name,
           arg_key := some (b.arg_key.getD name) }

/-- `BindDefault.__init__` (`bind.py`): the guaranteed-default variant
forwards every argument to `Bind.__init__`; the `default` argument is
keyword-required but its value is not checked (in particular Python `None`
is accepted). -/
def BindDefault.make (config_path : String) (default : Value)
    (arg_key : Option String) (action : Option String)
    (converter : Option (Value → Value)) : Bind :=
  Bind.make config_path arg_key action converter default

/-- `OmegaConf.select(config, key, default=None)`: walk the dotted path;
dict segments are keys, numeric segments index into `ListConfig` nodes;
any miss yields the default (`None`). -/
def selectGo : Value → List String → Value
  | v, [] => v
  | Value.dictConfig es, p :: ps =>
    match assocFind es p with
    | some v => selectGo v ps
    | Option.none => Value.none
  | Value.listConfig xs, p :: ps =>
    match parseIndex p with
    | some i =>
      if 0 ≤ i ∧ i.toNat < xs.length then selectGo (xs.getD i.toNat Value.none) ps
      else Value.none
    | Option.none => Value.none
  | _, _ :: _ => Value.none

def select (cfg : Value) (key : String) : Value := selectGo cfg (splitDots key)

/-- The ordered value sources of an `AppConfig`.  `argNamespace` is
`providers/argparse.py` `ArgNamespaceProvider` (a pre-parsed namespace plus
a defaults dict); `omega` is `providers/omegaconf.py` `OmegaConfProvider`
(the backing store, holding a config tree); `custom` stands for any other
implementation of the open `ConfigProvider` protocol. -/
inductive Provider where
  | argNamespace (args : List (String × Value)) (defaults : List (String × Value))
  | omega (store : Value)
  | custom (bindKeyFn : Bind → Option String) (getFn : String → Value)

/-- `ArgNamespaceProvider.get`: an attribute present on the namespace with
a non-`None` value wins; otherwise fall back to the defaults dict;
otherwise `None`. -/
def argNamespaceGet (args defaults : List (String × Value)) (key : String) :
    Value :=
  match assocFind args key with
  | some v => if v.isNone then dictGet defaults key else v
  | Option.none => dictGet defaults key

/-- `provider.bind_key(bind)`.  `ArgNamespaceProvider` does not override
`bind_key`; it inherits the `ConfigProvider` protocol stub, whose body is
the bare `...` expression, so the call returns `None` for every bind.
`OmegaConfProvider.bind_key` returns `bind.config_path`. -/
def Provider.bindKey : Provider → Bind → Option String
  | Provider.argNamespace _ _, _ => Option.none
  | Provider.omega _, b => some b.config_path
  | Provider.custom f _, b => f b

/-- `provider.get(key)` for each provider kind. -/
def Provider.get : Provider → String → Value
  | Provider.argNamespace args defaults, k => argNamespaceGet args defaults k
  | Provider.omega store, k => select store k
  | Provider.custom _ g, k => g k

/-- `isinstance(provider, BackingStore)`: of the repository's providers
only `OmegaConfProvider` implements `set`/`save`/`__contains__`. -/
def Provider.isStore : Provider → Bool
  | Provider.omega _ => true
  | _ => false

namespace AppConfig

/-- The provider loop of `AppConfig._resolve_bind` (lines 59-78): visit
providers in priority order; skip providers whose `bind_key` is `None` and
values that are `None`; remember `DefaultedValue` wrappers via Python
`or` (`defaulted = defaulted or value.value`); the first real value
becomes the result; with `action == "append"` and a plain-`list` result,
later list-like values are concatenated element-wise and other values
appended as a single element; otherwise later values are ignored.
Returns `(result, defaulted)`. -/
def resolveLoop (b : Bind) : List Provider → Value → Value → Value × Value
  | [], result, defaulted => (result, defaulted)
  | p :: ps, result, defaulted =>
    match p.bindKey b with
    | Option.none => resolveLoop b ps result defaulted
    | some key =>
      match p.get key with
      | Value.none => resolveLoop b ps result defaulted
      | Value.defaulted v => resolveLoop b ps result (pyOr defaulted v)
      | value =>
        match result with
        | Value.none => resolveLoop b ps value defaulted
        | Value.list rxs =>
          if b.action = some "append" then
            match value with
            | Value.list vxs => resolveLoop b ps (Value.list (rxs ++ vxs)) defaulted
            | Value.listConfig vxs => resolveLoop b ps (Value.list (rxs ++ vxs)) defaulted
            | v => resolveLoop b ps (Value.list (rxs ++ [v])) defaulted
          else resolveLoop b ps result defaulted
        | _ => resolveLoop b ps result defaulted

/-- `self._bind_defaults.get(bind.property_name) if bind.property_name is
not None else None` (lines 80-85). -/
def lookupBindDefaults (bd : List (String × Value)) (b : Bind) : Value :=
  match b.property_name with
  | some n => dictGet bd n
  | Option.none => Value.none

/-- The two fallback blocks of `_resolve_bind` (lines 80-91): if the loop
produced no result take the `bind_defaults` entry; if that is still `None`
take the static default, else the remembered `DefaultedValue` payload
(which may itself be `None`). -/
def applyFallbacks (r d : Value) (bd : List (String × Value)) (b : Bind) :
    Value :=
  match r with
  | Value.none =>
    match lookupBindDefaults bd b with
    | Value.none =>
      match b.default with
      | Value.none => d
      | dflt => dflt
    | r2 => r2
  | r1 => r1

/-- `AppConfig._convert` (lines 95-101): with a converter and a
non-`None` value, map element-wise over `list`/`ListConfig` values
(producing a plain list) and apply once otherwise; a `None` value or an
absent converter returns the value unchanged. -/
def convert (value : Value) (b : Bind) : Value :=
  match b.converter with
  | some f =>
    match value with
    | Value.none => Value.none
    | Value.list xs => Value.list (xs.map f)
    | Value.listConfig xs => Value.list (xs.map f)
    | v => f v
  | Option.none => value

/-- `AppConfig._resolve_bind` (lines 47-93): provider loop, fallback
chain, then `_convert`. -/
def resolveBind (providers : List Provider) (bd : List (String × Value))
    (b : Bind) : Value :=
  let rd := resolveLoop b providers Value.none Value.none
  convert (applyFallbacks rd.1 rd.2 bd b) b

end AppConfig

namespace OmegaConfig

/-- Recursive core of `OmegaConfig.set` (`omegaconf/omega_config.py`
lines 24-68).  `parts` is the full split key (for error highlighting), `i`
the index of the current segment, `rest` the remaining segments.
Missing dict keys on the way create empty `DictConfig` children.  On a
`ListConfig` node, a segment that `int()` cannot parse raises
`Invalid list index`; an in-range parse descends/assigns; the
out-of-bounds `Index ... out of bounds` ValueError is raised inside the
same `try` block and therefore caught by its own `except ValueError`,
which re-raises it as `Invalid list index` too — so both cases surface
with the `Invalid list index` message.  Any other node kind raises
`Config must be a DictConfig or ListConfig`.  (The Python version mutates
in place, so intermediate dicts created before a failure survive it; this
pure version returns the whole updated tree or the error.) -/
def setGo (parts : List String) (value : Value) :
    Nat → List String → Value → Except String Value
  | _, [], cur => Except.ok cur
  | i, [last], cur =>
    match cur with
    | Value.dictConfig es => Except.ok (Value.dictConfig (assocSet es last value))
    | Value.listConfig xs =>
      match parseIndex last with
      | some idx =>
        if idx < 0 ∨ (xs.length : Int) ≤ idx then
          Except.error ("Invalid list index: " ++ last ++ " in \"" ++ highlightKey parts i ++ "\"")
        else Except.ok (Value.listConfig (xs.set idx.toNat value))
      | Option.none =>
        Except.error ("Invalid list index: " ++ last ++ " in \"" ++ highlightKey parts i ++ "\"")
    | _ =>
      Except.error ("Config must be a DictConfig or ListConfig at \"" ++ highlightKey parts i ++ "\"")
  | i, p :: q :: rest, cur =>
    match cur with
    | Value.dictConfig es =>
      match setGo parts value (i + 1) (q :: rest) ((assocFind es p).getD (Value.dictConfig [])) with
      | Except.ok newChild => Except.ok (Value.dictConfig (assocSet es p newChild))
      | Except.error e => Except.error e
    | Value.listConfig xs =>
      match parseIndex p with
      | some idx =>
        if idx < 0 ∨ (xs.length : Int) ≤ idx then
          Except.error ("Invalid list index: " ++ p ++ " in \"" ++ highlightKey parts i ++ "\"")
        else
          match setGo parts value (i + 1) (q :: rest) (xs.getD idx.toNat Value.none) with
          | Except.ok newChild => Except.ok (Value.listConfig (xs.set idx.toNat newChild))
          | Except.error e => Except.error e
      | Option.none =>
        Except.error ("Invalid list index: " ++ p ++ " in \"" ++ highlightKey parts i ++ "\"")
    | _ =>
      Except.error ("Config must be a DictConfig or ListConfig at \"" ++ highlightKey parts i ++ "\"")

/-- `OmegaConfig.set(key, value)`: split the dotted key and walk. -/
def set (cfg : Value) (key : String) (value : Value) : Except String Value :=
  setGo (splitDots key) value 0 (splitDots key) cfg

end OmegaConfig

/-- `AppConfig.set` → `self._store.set`: the first provider satisfying
`BackingStore` receives the write (only `OmegaConfProvider` does);
with no backing store among the providers this is
`RuntimeError("No backing store found among providers")`. -/
def storeSet : List Provider → String → Value → Except String (List Provider)
  | [], _, _ => Except.error "No backing store found among providers"
  | Provider.omega store :: ps, k, v =>
    match OmegaConfig.set store k v with
    | Except.ok s2 => Except.ok (Provider.omega s2 :: ps)
    | Except.error e => Except.error e
  | p :: ps, k, v =>
    match storeSet ps k v with
    | Except.ok ps2 => Except.ok (p :: ps2)
    | Except.error e => Except.error e

/-- One `AppConfig` instance: its ordered providers, the `bind_defaults`
mapping, and the instance attribute dict (which holds the per-instance
`_bind_cache_<name>` entries written by `Bind.__set__`). -/
structure Instance where
  providers : List Provider
  bind_defaults : List (String × Value)
  attrs : List (String × Value)

/-- `Bind.__get__` on an instance: return the per-instance set-cache entry
when present (even when the cached value is `None`), else delegate to
`AppConfig._resolve_bind`.  (`BindDefault.__get__` has the identical
body.) -/
def bindGet (b : Bind) (inst : Instance) : Value :=
  match b.cache_attr with
  | some ca =>
    match assocFind inst.attrs ca with
    | some v => v
    | Option.none => AppConfig.resolveBind inst.providers inst.bind_defaults b
  | Option.none => AppConfig.resolveBind inst.providers inst.bind_defaults b

/-- `Bind.__set__`: write through to the backing store at `config_path`
(errors propagate, leaving the cache untouched), then populate the
per-instance cache attribute. -/
def bindSet (b : Bind) (value : Value) (inst : Instance) :
    Except String Instance :=
  match storeSet inst.providers b.config_path value with
  | Except.error e => Except.error e
  | Except.ok ps2 =>
    Except.ok { inst with
      providers := ps2
      attrs :=
        (match b.cache_attr with
         | some ca => assocSet inst.attrs ca value
         | Option.none => inst.attrs) }

/-- A provider contributes no real value for `b`: whenever its `bind_key`
answers, the fetched value is `None` or a `DefaultedValue` marker. -/
def noRealContribution (b : Bind) (p : Provider) : Prop :=
  ∀ k, p.bindKey b = some k → (p.get k).isRealValue = false

/-- The wrapped payloads of the `DefaultedValue` contributions of the
providers, in priority order. -/
def markerValues (b : Bind) (providers : List Provider) : List Value :=
  providers.filterMap (fun p =>
    match p.bindKey b with
    | some k =>
      match p.get k with
      | Value.defaulted v => some v
      | _ => Option.none
    | Option.none => Option.none)

/-- What `defaulted = defaulted or value.value` accumulates to: the first
truthy wrapped value, else the last wrapped value, else `None`. -/
def firstTruthyOrLast : List Value → Value
  | [] => Value.none
  | v :: vs =>
    if v.truthy then v
    else
      match vs with
      | [] => v
      | _ :: _ => firstTruthyOrLast vs

/-- `small` occurs as a contiguous substring of `big`. -/
def containsStr (big small : String) : Prop :=
  ∃ pre post : String, big = pre ++ small ++ post

namespace OmegaConfigLoader

/-- `pat` matched at the head of `s` returns the remainder. -/
def matchAt : List Char → List Char → Option (List Char)
  | [], s => some s
  | _ :: _, [] => Option.none
  | p :: ps, c :: cs => if p = c then matchAt ps cs else Option.none

/-- Split `s` around the first occurrence of `pat`:
`(before, after)`. -/
def findSplitChars (pat : List Char) : List Char → Option (List Char × List Char)
  | [] =>
    match matchAt pat [] with
    | some r => some ([], r)
    | Option.none => Option.none
  | c :: cs =>
    match matchAt pat (c :: cs) with
    | some r => some ([], r)
    | Option.none =>
      match findSplitChars pat cs with
      | some pr => some (c :: pr.1, pr.2)
      | Option.none => Option.none

/-- The loader's regex `Interpolation key '(.+?)' not found` applied to
the exception text: the (non-empty, shortest) capture between the first
`Interpolation key '` and the next `' not found`. -/
def extractKey (msg : String) : Option String :=
  match findSplitChars ("Interpolation key '".data) msg.data with
  | Option.none => Option.none
  | some br =>
    match findSplitChars ("' not found".data) br.2 with
    | Option.none => Option.none
    | some cr => if cr.1.isEmpty then Option.none else some (String.mk cr.1)

/-- `key.startswith("private.")`. -/
def keyStartsWithPrivate (k : String) : Bool :=
  (matchAt ("private.".data) k.data).isSome

/-- `Path(name).stem` for an ordinary file name with a final extension
(the name up to its last dot). -/
def stemOf (name : String) : String :=
  match splitDots name with
  | [] => name
  | [_] => name
  | parts => joinDots parts.dropLast

/-- `config_file.with_name(config_file.stem + "_private.yaml")`, with
paths modelled by their file names. -/
def privateNameOf (config_file : String) : String :=
  stemOf config_file ++ "_private.yaml"

/-- The outcome of `_load_raw`'s interpolation step: either the dedicated
private-config error (with the original exception kept as `cause`,
modelling `raise ... from exc`) or the untouched underlying error. -/
inductive LoadError where
  | privateConfig (key : String) (config_file : String)
      (private_file : String) (privateFileExists : Bool) (cause : String)
  | interpolation (msg : String)

/-- The message built by `PrivateConfigError.__init__` (`errors.py`): the
verb depends on whether the companion private file exists. -/
def privateConfigMessage (key config_file private_file : String)
    (privateFileExists : Bool) : String :=
  "Config '" ++ config_file ++ "' references private key '" ++ key ++
    "', but '" ++ private_file ++ "' " ++
    (if privateFileExists then "is missing key" else "was not found") ++
    ". Create or update '" ++ private_file ++ "' with the required private keys."

/-- `del config["private"]` on a top-level `DictConfig`. -/
def stripPrivate (cfg : Value) : Value :=
  match cfg with
  | Value.dictConfig es => Value.dictConfig (es.filter (fun kv => !(kv.1 == "private")))
  | c => c

/-- The interpolation-handling tail of `_load_raw` (`loader.py` lines
36-52).  The external `OmegaConf.resolve` call is a parameter: `resolved`
is either the resolved config or the `InterpolationKeyError` text.  On an
error whose regex-extracted key starts with `private.` the loader raises
`PrivateConfigError(key, config_file, private_file)`; every other error is
re-raised unchanged.  On success the top-level `private` section is
stripped. -/
def loadRawResolve (config_file : String) (privateFileExists : Bool)
    (resolved : Except String Value) : Except LoadError Value :=
  match resolved with
  | Except.ok cfg => Except.ok (stripPrivate cfg)
  | Except.error msg =>
    match extractKey msg with
    | some k =>
      if keyStartsWithPrivate k then
        Except.error (LoadError.privateConfig k config_file
          (privateNameOf config_file) privateFileExists msg)
      else Except.error (LoadError.interpolation msg)
    | Option.none => Except.error (LoadError.interpolation msg)

end OmegaConfigLoader

/-
Heap-instrumented copy of the resolution engine.  Identical control flow
to `AppConfig.resolveLoop`/`resolveBind` above, but a plain Python `list`
value is a reference (`HValue.listRef`) into an explicit heap of list
objects, so that the aliasing behaviour of `result.extend(value)` /
`result.append(value)` — which mutate the list object the first
contributing provider handed out — is observable.
-/

/-- Python values with plain lists by reference. -/
inductive HValue where
  | none : HValue
  | bool : Bool → HValue
  | int : Int → HValue
  | str : String → HValue
  | listRef : Nat → HValue
  | listConfig : List HValue → HValue
  | defaulted : HValue → HValue

/-- The store of plain-list objects; a `listRef r` denotes cell `r`. -/
abbrev Heap := List (List HValue)

def getCell (h : Heap) (r : Nat) : List HValue := h.getD r []

def setCell (h : Heap) (r : Nat) (cell : List HValue) : Heap := h.set r cell

/-- Python truthiness for heap values (a list is truthy iff its cell is
non-empty). -/
def truthyH (h : Heap) : HValue → Bool
  | HValue.none => false
  | HValue.bool b => b
  | HValue.int n => n != 0
  | HValue.str s => s != ""
  | HValue.listRef r => !(getCell h r).isEmpty
  | HValue.listConfig xs => !xs.isEmpty
  | HValue.defaulted _ => true

/-- Python `a or b` over heap values. -/
def pyOrH (h : Heap) (a b : HValue) : HValue := if truthyH h a then a else b

/-- A bind descriptor for the heap-level engine (same fields as `Bind`,
with heap-level values). -/
structure BindH where
  config_path : String
  arg_key : Option String
  property_name : Option String
  action : Option String
  converter : Option (HValue → HValue)
  default : HValue

/-- A `ConfigProvider` for the heap-level engine; `getFn` returns the
reference a provider holds (the same object on every call, as `getattr`
does). -/
structure ProviderH where
  bindKeyFn : BindH → Option String
  getFn : String → HValue

/-- The provider loop of `_resolve_bind` with the heap threaded through:
`result.extend(value)` / `result.append(value)` update the cell `result`
refers to in place. -/
def resolveLoopH (b : BindH) :
    List ProviderH → HValue → HValue → Heap → (HValue × HValue) × Heap
  | [], result, defaulted, h => ((result, defaulted), h)
  | p :: ps, result, defaulted, h =>
    match p.bindKeyFn b with
    | Option.none => resolveLoopH b ps result defaulted h
    | some key =>
      match p.getFn key with
      | HValue.none => resolveLoopH b ps result defaulted h
      | HValue.defaulted v => resolveLoopH b ps result (pyOrH h defaulted v) h
      | value =>
        match result with
        | HValue.none => resolveLoopH b ps value defaulted h
        | HValue.listRef r =>
          if b.action = some "append" then
            match value with
            | HValue.listRef rv =>
              resolveLoopH b ps result defaulted (setCell h r (getCell h r ++ getCell h rv))
            | HValue.listConfig xs =>
              resolveLoopH b ps result defaulted (setCell h r (getCell h r ++ xs))
            | v =>
              resolveLoopH b ps result defaulted (setCell h r (getCell h r ++ [v]))
          else resolveLoopH b ps result defaulted h
        | _ => resolveLoopH b ps result defaulted h

/-- Heap-level `bind_defaults` lookup. -/
def lookupBindDefaultsH (bd : List (String × HValue)) (b : BindH) : HValue :=
  match b.property_name with
  | some n => (assocFind bd n).getD HValue.none
  | Option.none => HValue.none

/-- Heap-level fallback chain of `_resolve_bind`. -/
def applyFallbacksH (r d : HValue) (bd : List (String × HValue)) (b : BindH) :
    HValue :=
  match r with
  | HValue.none =>
    match lookupBindDefaultsH bd b with
    | HValue.none =>
      match b.default with
      | HValue.none => d
      | dflt => dflt
    | r2 => r2
  | r1 => r1

/-- Heap-level `_convert`: the list comprehension allocates a fresh list
object; without a converter the value (and so the reference) is returned
unchanged. -/
def convertH (h : Heap) (value : HValue) (b : BindH) : HValue × Heap :=
  match b.converter with
  | some f =>
    match value with
    | HValue.none => (value, h)
    | HValue.listRef r => (HValue.listRef h.length, h ++ [(getCell h r).map f])
    | HValue.listConfig xs => (HValue.listRef h.length, h ++ [xs.map f])
    | v => (f v, h)
  | Option.none => (value, h)

/-- Heap-level `_resolve_bind`. -/
def resolveBindH (h : Heap) (providers : List ProviderH)
    (bd : List (String × HValue)) (b : BindH) : HValue × Heap :=
  let ld := resolveLoopH b providers HValue.none HValue.none h
  convertH ld.2 (applyFallbacksH ld.1.1 ld.1.2 bd b) b

/-- The elements a non-`None`, non-marker, non-reference contribution adds
under APPEND: a `ListConfig` contributes its elements, a scalar
contributes itself as a singleton. -/
def contribElems : HValue → Option (List HValue)
  | HValue.none => Option.none
  | HValue.defaulted _ => Option.none
  | HValue.listRef _ => Option.none
  | HValue.listConfig xs => some xs
  | v => some [v]

/- ------------------------------------------------------------------ -/
/- Supporting lemmas                                                   -/
/- ------------------------------------------------------------------ -/

lemma assocFind_assocSet {α : Type} (l : List (String × α)) (k : String)
    (v : α) : assocFind (assocSet l k v) k = some v := by
  induction l with
  | nil => simp [assocSet, assocFind]
  | cons kv rest ih =>
    by_cases h : kv.1 == k
    · simp [assocSet, assocFind, h]
    · simp only [assocSet, h, if_neg]
      simp only [assocFind, List.find?] at ih ⊢
      simp [h, ih]

lemma pyOr_of_truthy {a b : Value} (h : a.truthy = true) : pyOr a b = a := by
  simp [pyOr, h]

lemma pyOr_of_falsy {a b : Value} (h : a.truthy = false) : pyOr a b = b := by
  simp [pyOr, h]

lemma foldl_pyOr_of_truthy (ms : List Value) (a : Value)
    (h : a.truthy = true) : List.foldl pyOr a ms = a := by
  induction ms with
  | nil => rfl
  | cons m rest ih => simp [List.foldl, pyOr_of_truthy h, ih]

lemma foldl_pyOr_of_falsy (ms : List Value) (v : Value)
    (h : v.truthy = false) :
    List.foldl pyOr v ms = firstTruthyOrLast (v :: ms) := by
  induction ms generalizing v with
  | nil => simp [firstTruthyOrLast, h]
  | cons w ws ih =>
    simp only [List.foldl, pyOr_of_falsy h]
    by_cases hw : w.truthy
    · rw [foldl_pyOr_of_truthy ws w hw]
      simp [firstTruthyOrLast, h, hw]
    · rw [ih w (by simpa using hw)]
      simp [firstTruthyOrLast, h]

/-- `defaulted = defaulted or value.value`, started from `None`, keeps the
first truthy marker payload, else the last payload, else `None`. -/
lemma foldl_pyOr_none (ms : List Value) :
    List.foldl pyOr Value.none ms = firstTruthyOrLast ms := by
  cases ms with
  | nil => rfl
  | cons v vs =>
    simp only [List.foldl, pyOr_of_falsy (show Value.truthy Value.none = false from rfl)]
    by_cases hv : v.truthy
    · rw [foldl_pyOr_of_truthy vs v hv]
      cases vs <;> simp [firstTruthyOrLast, hv]
    · exact foldl_pyOr_of_falsy vs v (by simpa using hv)

/-- One iteration of the `_resolve_bind` provider loop (proof
decomposition of `AppConfig.resolveLoop`; proved equal to it in
`resolveLoop_cons`). -/
def loopStep (b : Bind) (p : Provider) (r d : Value) : Value × Value :=
  match p.bindKey b with
  | Option.none => (r, d)
  | some key =>
    match p.get key with
    | Value.none => (r, d)
    | Value.defaulted v => (r, pyOr d v)
    | value =>
      match r with
      | Value.none => (value, d)
      | Value.list rxs =>
        if b.action = some "append" then
          match value with
          | Value.list vxs => (Value.list (rxs ++ vxs), d)
          | Value.listConfig vxs => (Value.list (rxs ++ vxs), d)
          | v => (Value.list (rxs ++ [v]), d)
        else (r, d)
      | _ => (r, d)

lemma resolveLoop_cons (b : Bind) (p : Provider) (ps : List Provider)
    (r d : Value) :
    AppConfig.resolveLoop b (p :: ps) r d =
      AppConfig.resolveLoop b ps (loopStep b p r d).1 (loopStep b p r d).2 := by
  cases hk : p.bindKey b with
  | none => simp only [AppConfig.resolveLoop, loopStep, hk]
  | some k =>
    cases hv : p.get k <;>
      simp only [AppConfig.resolveLoop, loopStep, hk, hv] <;>
      cases r <;> (try rfl) <;>
      (by_cases ha : b.action = some "append" <;> simp [ha])

lemma loopStep_fst_of_ne (b : Bind) (p : Provider) (r d : Value)
    (h : r ≠ Value.none) : (loopStep b p r d).1 ≠ Value.none := by
  cases hk : p.bindKey b with
  | none => simpa only [loopStep, hk] using h
  | some k =>
    cases hv : p.get k <;>
      simp only [loopStep, hk, hv] <;>
      cases r <;> (try exact h) <;>
      (try exact fun hc => Value.noConfusion hc) <;>
      (by_cases ha : b.action = some "append" <;> simp [ha])

lemma loopStep_fst_none_iff (b : Bind) (p : Provider) (d : Value) :
    (loopStep b p Value.none d).1 = Value.none ↔ noRealContribution b p := by
  cases hk : p.bindKey b with
  | none =>
    simp only [loopStep, hk, noRealContribution]
    simp [hk]
  | some k =>
    cases hv : p.get k <;>
      simp only [loopStep, hk, hv, noRealContribution] <;>
      simp [hk, hv, Value.isRealValue]

lemma loopStep_snd (b : Bind) (p : Provider) (r d : Value) :
    (loopStep b p r d).2 = List.foldl pyOr d (markerValues b [p]) := by
  cases hk : p.bindKey b with
  | none => simp [loopStep, hk, markerValues]
  | some k =>
    cases hv : p.get k <;>
      simp only [loopStep, hk, hv, markerValues, List.filterMap] <;>
      cases r <;> (try simp [hk, hv]) <;>
      (by_cases ha : b.action = some "append" <;> simp [ha, hk, hv])

lemma resolveLoop_fst_ne_none (b : Bind) :
    ∀ (ps : List Provider) (r d : Value), r ≠ Value.none →
      (AppConfig.resolveLoop b ps r d).1 ≠ Value.none := by
  intro ps
  induction ps with
  | nil => intro r d hr; exact hr
  | cons p ps ih =>
    intro r d hr
    rw [resolveLoop_cons]
    exact ih _ _ (loopStep_fst_of_ne b p r d hr)

/-- The provider loop produces no result exactly when every provider's
contribution is `None` or a `DefaultedValue` marker. -/
lemma resolveLoop_fst_none_iff (b : Bind) :
    ∀ (ps : List Provider) (d : Value),
      ((AppConfig.resolveLoop b ps Value.none d).1 = Value.none ↔
        ∀ p ∈ ps, noRealContribution b p) := by
  intro ps
  induction ps with
  | nil => intro d; simp [AppConfig.resolveLoop]
  | cons p ps ih =>
    intro d
    rw [resolveLoop_cons]
    by_cases hnr : noRealContribution b p
    · have hfst : (loopStep b p Value.none d).1 = Value.none :=
        (loopStep_fst_none_iff b p d).mpr hnr
      rw [hfst]
      simp only [List.mem_cons]
      constructor
      · intro h q hq
        rcases hq with hq | hq
        · exact hq ▸ hnr
        · exact ((ih _).mp h) q hq
      · intro h
        exact (ih _).mpr (fun q hq => h q (Or.inr hq))
    · have hfst : (loopStep b p Value.none d).1 ≠ Value.none :=
        fun h => hnr ((loopStep_fst_none_iff b p d).mp h)
      constructor
      · intro h
        exact absurd h (resolveLoop_fst_ne_none b ps _ _ hfst)
      · intro h
        exact absurd (h p (List.mem_cons_self p ps)) hnr

/-- The `defaulted` accumulator equals the Python-`or` fold of the marker
payloads, in priority order. -/
lemma resolveLoop_snd_eq (b : Bind) :
    ∀ (ps : List Provider) (r d : Value),
      (AppConfig.resolveLoop b ps r d).2 =
        List.foldl pyOr d (markerValues b ps) := by
  intro ps
  induction ps with
  | nil => intro r d; simp [AppConfig.resolveLoop, markerValues]
  | cons p ps ih =>
    intro r d
    rw [resolveLoop_cons, ih]
    have hm : markerValues b (p :: ps) =
        markerValues b [p] ++ markerValues b ps := by
      simp only [markerValues, List.filterMap_cons]
      split <;> simp
    rw [hm, List.foldl_append, loopStep_snd]

lemma applyFallbacks_of_ne {r : Value} (d : Value)
    (bd : List (String × Value)) (b : Bind) (h : r ≠ Value.none) :
    AppConfig.applyFallbacks r d bd b = r := by
  cases r <;> first | exact absurd rfl h | rfl

lemma applyFallbacks_all_none {r : Value} (d : Value)
    (bd : List (String × Value)) (b : Bind) (hr : r = Value.none)
    (hbd : AppConfig.lookupBindDefaults bd b = Value.none)
    (hdef : b.default = Value.none) :
    AppConfig.applyFallbacks r d bd b = d := by
  subst hr
  simp only [AppConfig.applyFallbacks, hbd, hdef]

lemma applyFallbacks_ne_none (r d : Value) (bd : List (String × Value))
    (b : Bind) (hdef : b.default ≠ Value.none) :
    AppConfig.applyFallbacks r d bd b ≠ Value.none := by
  cases r with
  | none =>
    simp only [AppConfig.applyFallbacks]
    cases hbd : AppConfig.lookupBindDefaults bd b <;>
      try exact fun hc => Value.noConfusion hc
    cases hd : b.default <;>
      first
      | exact absurd hd hdef
      | exact fun hc => Value.noConfusion hc
  | bool v => exact fun hc => Value.noConfusion hc
  | int v => exact fun hc => Value.noConfusion hc
  | str v => exact fun hc => Value.noConfusion hc
  | list v => exact fun hc => Value.noConfusion hc
  | listConfig v => exact fun hc => Value.noConfusion hc
  | dictConfig v => exact fun hc => Value.noConfusion hc
  | defaulted v => exact fun hc => Value.noConfusion hc

lemma convert_no_converter (v : Value) (b : Bind)
    (h : b.converter = Option.none) : AppConfig.convert v b = v := by
  simp only [AppConfig.convert, h]

lemma convert_ne_none (v : Value) (b : Bind) (hconv : b.converter = Option.none)
    (hv : v ≠ Value.none) : AppConfig.convert v b ≠ Value.none := by
  rw [convert_no_converter v b hconv]; exact hv

lemma resolveBind_eq (providers : List Provider) (bd : List (String × Value))
    (b : Bind) :
    AppConfig.resolveBind providers bd b =
      AppConfig.convert
        (AppConfig.applyFallbacks
          (AppConfig.resolveLoop b providers Value.none Value.none).1
          (AppConfig.resolveLoop b providers Value.none Value.none).2 bd b) b := rfl

lemma strAppend_assoc (a b c : String) : a ++ b ++ c = a ++ (b ++ c) := by
  apply String.ext
  simp [String.data_append, List.append_assoc]

lemma containsStr_trans {a b c : String} (h1 : containsStr a b)
    (h2 : containsStr b c) : containsStr a c := by
  obtain ⟨p1, q1, e1⟩ := h1
  obtain ⟨p2, q2, e2⟩ := h2
  refine ⟨p1 ++ p2, q2 ++ q1, ?_⟩
  rw [e1, e2]
  apply String.ext
  simp [String.data_append, List.append_assoc]

lemma joinDots_contains :
    ∀ (l : List String) (j : Nat), j < l.length →
      containsStr (joinDots l) (l.getD j "") := by
  intro l
  induction l with
  | nil => intro j hj; exact absurd hj (by simp)
  | cons s rest ih =>
    intro j hj
    cases rest with
    | nil =>
      cases j with
      | zero =>
        refine ⟨"", "", ?_⟩
        apply String.ext
        simp [String.data_append, joinDots]
      | succ j2 => exact absurd hj (by simp)
    | cons t ts =>
      cases j with
      | zero =>
        refine ⟨"", "." ++ joinDots (t :: ts), ?_⟩
        apply String.ext
        simp [String.data_append, joinDots]
      | succ j2 =>
        have hj2 : j2 < (t :: ts).length := by
          simpa [Nat.succ_lt_succ_iff] using hj
        obtain ⟨pre, post, e⟩ := ih j2 hj2
        refine ⟨s ++ "." ++ pre, post, ?_⟩
        have : joinDots (s :: t :: ts) = s ++ "." ++ joinDots (t :: ts) := rfl
        rw [this, e]
        apply String.ext
        simp [String.data_append, List.append_assoc]

lemma starParts_length : ∀ (l : List String) (i : Nat),
    (starParts l i).length = l.length := by
  intro l
  induction l with
  | nil => intro i; rfl
  | cons p ps ih =>
    intro i
    cases i with
    | zero => simp [starParts]
    | succ j => simp [starParts, ih]

lemma starParts_getD : ∀ (l : List String) (j : Nat), j < l.length →
    (starParts l j).getD j "" = "**" ++ l.getD j "" ++ "**" := by
  intro l
  induction l with
  | nil => intro j hj; exact absurd hj (by simp)
  | cons p ps ih =>
    intro j hj
    cases j with
    | zero => rfl
    | succ j2 =>
      have hj2 : j2 < ps.length := by
        simpa [Nat.succ_lt_succ_iff] using hj
      simpa [starParts] using ih j2 hj2

/-- The highlighted key contains the offending segment wrapped in
`**...**`. -/
lemma highlightKey_contains_star (parts : List String) (j : Nat)
    (hj : j < parts.length) :
    containsStr (highlightKey parts j) ("**" ++ parts.getD j "" ++ "**") := by
  have hlen : j < (starParts parts j).length := by
    rw [starParts_length]; exact hj
  have h := joinDots_contains (starParts parts j) j hlen
  rw [starParts_getD parts j hj] at h
  exact h

/-- Every error raised by the `set` walk carries the full dotted key with
the failing segment highlighted. -/
lemma setGo_error (parts : List String) (value : Value) :
    ∀ (rest : List String) (i : Nat) (cur : Value) (e : String),
      i + rest.length = parts.length →
      OmegaConfig.setGo parts value i rest cur = Except.error e →
      ∃ j, j < parts.length ∧ containsStr e (highlightKey parts j) := by
  intro rest
  induction rest with
  | nil =>
    intro i cur e _ h
    exact absurd h (by simp [OmegaConfig.setGo])
  | cons p tail ih =>
    intro i cur e hinv h
    have hi : i < parts.length := by
      simp only [List.length_cons] at hinv
      omega
    cases tail with
    | nil =>
      cases cur with
      | dictConfig es => exact absurd h (by simp [OmegaConfig.setGo])
      | listConfig xs =>
        simp only [OmegaConfig.setGo] at h
        cases hpi : parseIndex p with
        | none =>
          simp only [hpi] at h
          injection h with he
          exact ⟨i, hi, ("Invalid list index: " ++ p ++ " in \""), "\"", he.symm⟩
        | some idx =>
          simp only [hpi] at h
          by_cases hb : idx < 0 ∨ (xs.length : Int) ≤ idx
          · rw [if_pos hb] at h
            injection h with he
            exact ⟨i, hi, ("Invalid list index: " ++ p ++ " in \""), "\"", he.symm⟩
          · rw [if_neg hb] at h
            exact absurd h (by simp)
      | none =>
        simp only [OmegaConfig.setGo] at h
        injection h with he
        exact ⟨i, hi, ("Config must be a DictConfig or ListConfig at \""), "\"", he.symm⟩
      | list v =>
        simp only [OmegaConfig.setGo] at h
        injection h with he
        exact ⟨i, hi, ("Config must be a DictConfig or ListConfig at \""), "\"", he.symm⟩
      | bool v =>
        simp only [OmegaConfig.setGo] at h
        injection h with he
        exact ⟨i, hi, ("Config must be a DictConfig or ListConfig at \""), "\"", he.symm⟩
      | int v =>
        simp only [OmegaConfig.setGo] at h
        injection h with he
        exact ⟨i, hi, ("Config must be a DictConfig or ListConfig at \""), "\"", he.symm⟩
      | str v =>
        simp only [OmegaConfig.setGo] at h
        injection h with he
        exact ⟨i, hi, ("Config must be a DictConfig or ListConfig at \""), "\"", he.symm⟩
      | defaulted v =>
        simp only [OmegaConfig.setGo] at h
        injection h with he
        exact ⟨i, hi, ("Config must be a DictConfig or ListConfig at \""), "\"", he.symm⟩
    | cons q rest2 =>
      have hinv2 : (i + 1) + (q :: rest2).length = parts.length := by
        simp only [List.length_cons] at hinv ⊢
        omega
      cases cur with
      | dictConfig es =>
        simp only [OmegaConfig.setGo] at h
        cases hrec : OmegaConfig.setGo parts value (i + 1) (q :: rest2)
            ((assocFind es p).getD (Value.dictConfig [])) with
        | ok c => rw [hrec] at h; exact absurd h (by simp)
        | error e2 =>
          rw [hrec] at h
          injection h with he
          exact he ▸ ih (i + 1) _ e2 hinv2 hrec
      | listConfig xs =>
        simp only [OmegaConfig.setGo] at h
        cases hpi : parseIndex p with
        | none =>
          simp only [hpi] at h
          injection h with he
          exact ⟨i, hi, ("Invalid list index: " ++ p ++ " in \""), "\"", he.symm⟩
        | some idx =>
          simp only [hpi] at h
          by_cases hb : idx < 0 ∨ (xs.length : Int) ≤ idx
          · rw [if_pos hb] at h
            injection h with he
            exact ⟨i, hi, ("Invalid list index: " ++ p ++ " in \""), "\"", he.symm⟩
          · rw [if_neg hb] at h
            cases hrec : OmegaConfig.setGo parts value (i + 1) (q :: rest2)
                (xs.getD idx.toNat Value.none) with
            | ok c => rw [hrec] at h; exact absurd h (by simp)
            | error e2 =>
              rw [hrec] at h
              injection h with he
              exact he ▸ ih (i + 1) _ e2 hinv2 hrec
      | none =>
        simp only [OmegaConfig.setGo] at h
        injection h with he
        exact ⟨i, hi, ("Config must be a DictConfig or ListConfig at \""), "\"", he.symm⟩
      | list v =>
        simp only [OmegaConfig.setGo] at h
        injection h with he
        exact ⟨i, hi, ("Config must be a DictConfig or ListConfig at \""), "\"", he.symm⟩
      | bool v =>
        simp only [OmegaConfig.setGo] at h
        injection h with he
        exact ⟨i, hi, ("Config must be a DictConfig or ListConfig at \""), "\"", he.symm⟩
      | int v =>
        simp only [OmegaConfig.setGo] at h
        injection h with he
        exact ⟨i, hi, ("Config must be a DictConfig or ListConfig at \""), "\"", he.symm⟩
      | str v =>
        simp only [OmegaConfig.setGo] at h
        injection h with he
        exact ⟨i, hi, ("Config must be a DictConfig or ListConfig at \""), "\"", he.symm⟩
      | defaulted v =>
        simp only [OmegaConfig.setGo] at h
        injection h with he
        exact ⟨i, hi, ("Config must be a DictConfig or ListConfig at \""), "\"", he.symm⟩

/- ------------------------------------------------------------------ -/
/- Concrete fixtures shared by the claim theorems                      -/
/- ------------------------------------------------------------------ -/

/-- The store `{server: {port: 8080}}`. -/
def serverStore : Value :=
  Value.dictConfig [("server", Value.dictConfig [("port", Value.int 8080)])]

/-- `port = Bind[int]("server.port")` after `__set_name__` bound it to the
property `port`. -/
def portBind : Bind :=
  (Bind.make "server.port" Option.none Option.none Option.none Value.none).setName "port"

/-- The store `{extra: [from_config]}`. -/
def extraStore : Value :=
  Value.dictConfig [("extra", Value.listConfig [Value.str "from_config"])]

/-- `items = Bind("extra", arg_key="items", action="append")` bound to the
property `items`. -/
def itemsBind : Bind :=
  (Bind.make "extra" (some "items") (some "append") Option.none Value.none).setName "items"

/-- `port = Bind[int]("server.port", default=3000)` bound to `port`. -/
def port3000Bind : Bind :=
  (Bind.make "server.port" Option.none Option.none Option.none (Value.int 3000)).setName "port"

/-- A `ConfigProvider` whose `get` yields `DefaultedValue(v)` for every
key and whose `bind_key` always answers. -/
def markerProvider (v : Value) : Provider :=
  Provider.custom (fun _ => some "k") (fun _ => Value.defaulted v)

/- ------------------------------------------------------------------ -/
/- Claim theorems                                                      -/
/- ------------------------------------------------------------------ -/

/-- C1: evaluation of the code on the claim's scenario.  With the store
`{server: {port: 8080}}` and the argument namespace `port=9090` ahead of
it, `_resolve_bind` returns 8080, not the claimed 9090:
`ArgNamespaceProvider` inherits `bind_key` from the `ConfigProvider`
protocol stub, which returns `None`, so the argument provider is skipped
(second conjunct).  The repository's own test
`test_resolve_argparse_wins` asserts 9090, so this is a defect in the
code, not in the claim. -/
theorem claim1_arg_value_does_not_win :
    AppConfig.resolveBind
        [Provider.argNamespace [("port", Value.int 9090)] [],
         Provider.omega serverStore] [] portBind = Value.int 8080 ∧
    Provider.bindKey (Provider.argNamespace [("port", Value.int 9090)] [])
        portBind = Option.none :=
  ⟨rfl, rfl⟩

/-- C2: after `instance.prop = V` succeeds (any `V`, including Python
`None`), the per-instance cache holds exactly `V`; the very next read
returns `V`; and any later read returns `V` for arbitrary provider
states, `bind_defaults`, and attribute dicts whose cache entry is still
`V` — no provider is consulted and no converter is applied. -/
theorem claim2_set_then_get_returns_cached :
    ∀ (b : Bind) (ca : String) (V : Value) (inst inst2 : Instance),
      b.cache_attr = some ca →
      bindSet b V inst = Except.ok inst2 →
      assocFind inst2.attrs ca = some V ∧
      bindGet b inst2 = V ∧
      (∀ (ps : List Provider) (bd ats : List (String × Value)),
          assocFind ats ca = some V →
          bindGet b { providers := ps, bind_defaults := bd, attrs := ats } = V) := by
  intro b ca V inst inst2 hca hset
  simp only [bindSet] at hset
  cases hs : storeSet inst.providers b.config_path V with
  | error e =>
    rw [hs] at hset
    exact absurd hset (by simp)
  | ok ps2 =>
    rw [hs] at hset
    injection hset with h2
    have hattrs : inst2.attrs = assocSet inst.attrs ca V := by
      rw [← h2]
      simp [hca]
    have hfind : assocFind inst2.attrs ca = some V := by
      rw [hattrs]
      exact assocFind_assocSet inst.attrs ca V
    refine ⟨hfind, ?_, ?_⟩
    · simp only [bindGet, hca, hfind]
    · intro ps bd ats hf
      simp only [bindGet, hca, hf]

/-- C4: evaluation of the code on the claim's scenario.  With the store
`{extra: [from_config]}` and the argument namespace `items=[from_arg]` in
APPEND mode, `_resolve_bind` returns only `[from_config]` (as the store's
`ListConfig`), not the claimed `[from_arg, from_config]`: the argument
provider is skipped because its inherited `bind_key` protocol stub
returns `None`.  The repository's own test `test_resolve_append_merges`
asserts `[from_arg, from_config]`, so this is a defect in the code, not
in the claim. -/
theorem claim4_append_drops_arg_contribution :
    AppConfig.resolveBind
        [Provider.argNamespace [("items", Value.list [Value.str "from_arg"])] [],
         Provider.omega extraStore] [] itemsBind
      = Value.listConfig [Value.str "from_config"] := rfl

/-- C6: `_convert` with a converter maps element-wise (in order) over
`list` and `ListConfig` results, applies the converter exactly once to a
non-null non-list result, and returns a null result unchanged — the
converter is never invoked on it (the `None` case is independent of the
converter). -/
theorem claim6_converter_application (b : Bind) (f : Value → Value)
    (hconv : b.converter = some f) :
    AppConfig.convert Value.none b = Value.none ∧
    (∀ xs, AppConfig.convert (Value.list xs) b = Value.list (xs.map f)) ∧
    (∀ xs, AppConfig.convert (Value.listConfig xs) b = Value.list (xs.map f)) ∧
    (∀ v, v ≠ Value.none → v.isListLike = false →
        AppConfig.convert v b = f v) := by
  refine ⟨?_, ?_, ?_, ?_⟩
  · simp only [AppConfig.convert, hconv]
  · intro xs; simp only [AppConfig.convert, hconv]
  · intro xs; simp only [AppConfig.convert, hconv]
  · intro v hv hl
    cases v with
    | none => exact absurd rfl hv
    | list xs => exact absurd hl (by simp [Value.isListLike])
    | listConfig xs => exact absurd hl (by simp [Value.isListLike])
    | bool x => simp only [AppConfig.convert, hconv]
    | int x => simp only [AppConfig.convert, hconv]
    | str x => simp only [AppConfig.convert, hconv]
    | dictConfig es => simp only [AppConfig.convert, hconv]
    | defaulted w => simp only [AppConfig.convert, hconv]

/-- A bind whose converter maps every value to `7`. -/
def sevenConvBind : Bind :=
  Bind.make "p" Option.none Option.none (some (fun _ => Value.int 7)) Value.none

/-- C6 witness: the converter conjuncts evaluated at concrete inputs. -/
theorem claim6_converter_application_witness :
    AppConfig.convert (Value.list [Value.int 3, Value.str "a"]) sevenConvBind
      = Value.list [Value.int 7, Value.int 7] ∧
    AppConfig.convert Value.none sevenConvBind = Value.none ∧
    AppConfig.convert (Value.str "x") sevenConvBind = Value.int 7 := by
  have h := claim6_converter_application sevenConvBind (fun _ => Value.int 7) rfl
  exact ⟨(h.2.1 [Value.int 3, Value.str "a"]).trans rfl, h.1,
    (h.2.2.2 (Value.str "x") (fun hc => Value.noConfusion hc) rfl).trans rfl⟩

/-- Instance holding only the store `{server: {port: 8080}}`. -/
def cacheInstBefore : Instance :=
  { providers := [Provider.omega serverStore], bind_defaults := [], attrs := [] }

/-- `cacheInstBefore` after `cfg.port = None`: the store path was
overwritten and the cache attribute records the assigned `None`. -/
def cacheInstAfter : Instance :=
  { providers := [Provider.omega
      (Value.dictConfig [("server", Value.dictConfig [("port", Value.none)])])],
    bind_defaults := [],
    attrs := [("_bind_cache_port", Value.none)] }

/-- C2 witness: assigning Python `None` to `port` round-trips — the next
read returns `None` although the store would resolve to a value. -/
theorem claim2_set_then_get_returns_cached_witness :
    bindGet portBind cacheInstAfter = Value.none :=
  (claim2_set_then_get_returns_cached portBind "_bind_cache_port" Value.none
    cacheInstBefore cacheInstAfter rfl rfl).2.1

/-- C3 (amended): a `DefaultedValue` contribution never counts as a
resolved value.  (i) The loop result is null iff every provider
contributes only null or markers; (ii) with a non-null loop result the
fallback chain (and so any marker payload) is bypassed; (iii) the
remembered marker payload is used only when every provider contribution
is null-or-marker, `bind_defaults` yields no non-null value (amendment:
an entry stored with value `None` does not block the marker), and the
static default is null; (iv) hence a real non-null value from any
lower-priority source beats a marker from a higher-priority source. -/
theorem claim3_marker_never_resolved (providers : List Provider)
    (bd : List (String × Value)) (b : Bind) :
    ((AppConfig.resolveLoop b providers Value.none Value.none).1 = Value.none ↔
      ∀ p ∈ providers, noRealContribution b p) ∧
    ((AppConfig.resolveLoop b providers Value.none Value.none).1 ≠ Value.none →
      AppConfig.resolveBind providers bd b =
        AppConfig.convert
          (AppConfig.resolveLoop b providers Value.none Value.none).1 b) ∧
    ((AppConfig.resolveLoop b providers Value.none Value.none).1 = Value.none →
      AppConfig.lookupBindDefaults bd b = Value.none →
      b.default = Value.none →
      AppConfig.resolveBind providers bd b =
        AppConfig.convert
          (AppConfig.resolveLoop b providers Value.none Value.none).2 b) ∧
    ((∃ p ∈ providers, ¬ noRealContribution b p) →
      (AppConfig.resolveLoop b providers Value.none Value.none).1 ≠ Value.none) := by
  refine ⟨resolveLoop_fst_none_iff b providers Value.none, ?_, ?_, ?_⟩
  · intro h
    rw [resolveBind_eq, applyFallbacks_of_ne _ bd b h]
  · intro h1 h2 h3
    rw [resolveBind_eq, applyFallbacks_all_none _ bd b h1 h2 h3]
  · rintro ⟨p, hp, hnp⟩ h
    exact hnp (((resolveLoop_fst_none_iff b providers Value.none).mp h) p hp)

/-- C3 counterexample: `bind_defaults` HAS an entry for `port` (stored
with value `None`), yet the marker payload 5 is still used — refuting
"used only if bindDefaults has no entry for the property". -/
theorem claim3_counterexample :
    (assocFind [("port", Value.none)] "port").isSome = true ∧
    AppConfig.resolveBind [markerProvider (Value.int 5)]
        [("port", Value.none)] portBind = Value.int 5 :=
  ⟨rfl, rfl⟩

/-- C3 witness: a single marker provider and empty defaults make the
deferred payload the result. -/
theorem claim3_marker_never_resolved_witness :
    AppConfig.resolveBind [markerProvider (Value.int 7)] [] portBind
      = Value.int 7 := by
  have h := (claim3_marker_never_resolved [markerProvider (Value.int 7)] []
    portBind).2.2.1 rfl rfl rfl
  exact h.trans rfl

/-- C5 (amended): when no source produces a real value, resolution is the
fallback chain in this exact order — non-null `bind_defaults` entry, then
non-null static default, then the remembered deferred marker payload,
then null — where the remembered payload is the first truthy marker
payload (or the last payload when none is truthy), not necessarily the
first remembered marker. -/
theorem claim5_fallback_chain (providers : List Provider)
    (bd : List (String × Value)) (b : Bind)
    (h : ∀ p ∈ providers, noRealContribution b p) :
    AppConfig.resolveBind providers bd b =
      AppConfig.convert
        (AppConfig.applyFallbacks Value.none
          (firstTruthyOrLast (markerValues b providers)) bd b) b := by
  have h1 : (AppConfig.resolveLoop b providers Value.none Value.none).1
      = Value.none :=
    (resolveLoop_fst_none_iff b providers Value.none).mpr h
  have h2 : (AppConfig.resolveLoop b providers Value.none Value.none).2
      = firstTruthyOrLast (markerValues b providers) := by
    rw [resolveLoop_snd_eq, foldl_pyOr_none]
  rw [resolveBind_eq, h1, h2]

/-- C5 counterexample: markers wrapping 0 then 5 (both deferred).  The
claim's "first remembered marker" demands 0, but `defaulted or
value.value` uses Python truthiness, so the falsy 0 is overwritten and
resolution returns 5. -/
theorem claim5_counterexample :
    AppConfig.resolveBind
        [markerProvider (Value.int 0), markerProvider (Value.int 5)] []
        portBind = Value.int 5 ∧
    AppConfig.resolveBind
        [markerProvider (Value.int 0), markerProvider (Value.int 5)] []
        portBind ≠ Value.int 0 := by
  refine ⟨rfl, ?_⟩
  intro h
  injection (show Value.int 5 = Value.int 0 from h) with hn
  exact absurd hn (by decide)

/-- C5 witness: the spec scenario — no source produces a value and
`staticDefault = 3000` resolves to 3000. -/
theorem claim5_fallback_chain_witness :
    AppConfig.resolveBind [] [] port3000Bind = Value.int 3000 := by
  have h := claim5_fallback_chain [] [] port3000Bind
    (fun p hp => absurd hp (List.not_mem_nil p))
  exact h.trans rfl

/-- C9 (amended): `BindDefault` forwards its arguments unchanged to
`Bind.__init__` (so it behaves identically in resolution), and — when the
supplied static default is non-null and there is no converter — its
resolution never yields null.  The amendment: the constructor requires
the `default` argument to be passed but does not check it for null. -/
theorem claim9_bind_default_never_none (providers : List Provider)
    (bd : List (String × Value)) (path : String)
    (argk act : Option String) (d : Value) (name : String)
    (hd : d ≠ Value.none) :
    AppConfig.resolveBind providers bd
        ((BindDefault.make path d argk act Option.none).setName name)
      ≠ Value.none ∧
    (∀ (conv : Option (Value → Value)) (dflt : Value),
        BindDefault.make path dflt argk act conv
          = Bind.make path argk act conv dflt) := by
  constructor
  · rw [resolveBind_eq]
    exact convert_ne_none _ _ rfl (applyFallbacks_ne_none _ _ bd _ hd)
  · intro conv dflt
    rfl

/-- C9 counterexample: `BindDefault("server.port", default=None)` is
accepted at construction, and with no sources its resolution yields null
— refuting both "requires a non-null static default" and "resolution
never yields null" for the variant as implemented. -/
theorem claim9_counterexample :
    AppConfig.resolveBind [] []
        ((BindDefault.make "server.port" Value.none Option.none Option.none
          Option.none).setName "port")
      = Value.none := rfl

/-- C9 witness: with default 3000 and no providers, resolution is
non-null. -/
theorem claim9_bind_default_never_none_witness :
    AppConfig.resolveBind [] []
        ((BindDefault.make "server.port" (Value.int 3000) Option.none
          Option.none Option.none).setName "port")
      ≠ Value.none :=
  (claim9_bind_default_never_none [] [] "server.port" Option.none Option.none
    (Value.int 3000) "port" (fun h => Value.noConfusion h)).1

/-- `isinstance(cur, DictConfig) or isinstance(cur, ListConfig)`: the
only node kinds the `set` walk can address. -/
def Value.isOmegaContainer : Value → Bool
  | Value.dictConfig _ => true
  | Value.listConfig _ => true
  | _ => false

/-- C7: (i) whenever `OmegaConfig.set` raises on a dotted key the error
message contains the full dotted key with the offending segment
highlighted (`**segment**`), and the error is returned to the caller (the
`Except.error` value), never swallowed; and the walk does raise when it
hits (ii) a non-numeric segment addressing a `ListConfig`, (iii) an
out-of-range list index, or (iv) a non-addressable node (neither
`DictConfig` nor `ListConfig`). -/
theorem claim7_set_error_identifies_segment :
    (∀ (cfg : Value) (key : String) (v : Value) (e : String),
      OmegaConfig.set cfg key v = Except.error e →
      ∃ j, j < (splitDots key).length ∧
        containsStr e (highlightKey (splitDots key) j) ∧
        containsStr e ("**" ++ (splitDots key).getD j "" ++ "**")) ∧
    (∀ (parts : List String) (v : Value) (i : Nat) (p : String)
        (tail : List String) (xs : List Value),
      parseIndex p = Option.none →
      ∃ e, OmegaConfig.setGo parts v i (p :: tail) (Value.listConfig xs)
        = Except.error e) ∧
    (∀ (parts : List String) (v : Value) (i : Nat) (p : String)
        (tail : List String) (xs : List Value) (idx : Int),
      parseIndex p = some idx → (idx < 0 ∨ (xs.length : Int) ≤ idx) →
      ∃ e, OmegaConfig.setGo parts v i (p :: tail) (Value.listConfig xs)
        = Except.error e) ∧
    (∀ (parts : List String) (v : Value) (i : Nat) (p : String)
        (tail : List String) (cur : Value),
      cur.isOmegaContainer = false →
      ∃ e, OmegaConfig.setGo parts v i (p :: tail) cur = Except.error e) := by
  refine ⟨?_, ?_, ?_, ?_⟩
  · intro cfg key v e h
    obtain ⟨j, hj, hc⟩ :=
      setGo_error (splitDots key) v (splitDots key) 0 cfg e (by simp) h
    exact ⟨j, hj, hc, containsStr_trans hc (highlightKey_contains_star _ j hj)⟩
  · intro parts v i p tail xs hp
    cases tail <;>
      exact ⟨"Invalid list index: " ++ p ++ " in \"" ++ highlightKey parts i ++ "\"",
        by simp [OmegaConfig.setGo, hp]⟩
  · intro parts v i p tail xs idx hp hb
    cases tail <;>
      exact ⟨"Invalid list index: " ++ p ++ " in \"" ++ highlightKey parts i ++ "\"",
        by simp [OmegaConfig.setGo, hp, hb]⟩
  · intro parts v i p tail cur hcur
    cases tail with
    | nil =>
      cases cur with
      | dictConfig es => exact absurd hcur (by simp [Value.isOmegaContainer])
      | listConfig xs => exact absurd hcur (by simp [Value.isOmegaContainer])
      | none => exact ⟨"Config must be a DictConfig or ListConfig at \"" ++
          highlightKey parts i ++ "\"", by simp [OmegaConfig.setGo]⟩
      | bool x => exact ⟨"Config must be a DictConfig or ListConfig at \"" ++
          highlightKey parts i ++ "\"", by simp [OmegaConfig.setGo]⟩
      | int x => exact ⟨"Config must be a DictConfig or ListConfig at \"" ++
          highlightKey parts i ++ "\"", by simp [OmegaConfig.setGo]⟩
      | str x => exact ⟨"Config must be a DictConfig or ListConfig at \"" ++
          highlightKey parts i ++ "\"", by simp [OmegaConfig.setGo]⟩
      | list x => exact ⟨"Config must be a DictConfig or ListConfig at \"" ++
          highlightKey parts i ++ "\"", by simp [OmegaConfig.setGo]⟩
      | defaulted x => exact ⟨"Config must be a DictConfig or ListConfig at \"" ++
          highlightKey parts i ++ "\"", by simp [OmegaConfig.setGo]⟩
    | cons q tail2 =>
      cases cur with
      | dictConfig es => exact absurd hcur (by simp [Value.isOmegaContainer])
      | listConfig xs => exact absurd hcur (by simp [Value.isOmegaContainer])
      | none => exact ⟨"Config must be a DictConfig or ListConfig at \"" ++
          highlightKey parts i ++ "\"", by simp [OmegaConfig.setGo]⟩
      | bool x => exact ⟨"Config must be a DictConfig or ListConfig at \"" ++
          highlightKey parts i ++ "\"", by simp [OmegaConfig.setGo]⟩
      | int x => exact ⟨"Config must be a DictConfig or ListConfig at \"" ++
          highlightKey parts i ++ "\"", by simp [OmegaConfig.setGo]⟩
      | str x => exact ⟨"Config must be a DictConfig or ListConfig at \"" ++
          highlightKey parts i ++ "\"", by simp [OmegaConfig.setGo]⟩
      | list x => exact ⟨"Config must be a DictConfig or ListConfig at \"" ++
          highlightKey parts i ++ "\"", by simp [OmegaConfig.setGo]⟩
      | defaulted x => exact ⟨"Config must be a DictConfig or ListConfig at \"" ++
          highlightKey parts i ++ "\"", by simp [OmegaConfig.setGo]⟩

/-- C7 witness: setting `a.5.b` on `{a: [1]}` hits an out-of-range list
index and the raised message highlights the `5` segment within the full
key. -/
theorem claim7_set_error_identifies_segment_witness :
    ∃ j, j < (splitDots "a.5.b").length ∧
      containsStr "Invalid list index: 5 in \"a.**5**.b\""
        (highlightKey (splitDots "a.5.b") j) ∧
      containsStr "Invalid list index: 5 in \"a.**5**.b\""
        ("**" ++ (splitDots "a.5.b").getD j "" ++ "**") :=
  claim7_set_error_identifies_segment.1
    (Value.dictConfig [("a", Value.listConfig [Value.int 1])]) "a.5.b"
    (Value.int 0) "Invalid list index: 5 in \"a.**5**.b\"" rfl

/-- C8: the loader's interpolation handling.  (i) An interpolation
failure whose regex-extracted key lies under `private.` is rethrown as
the dedicated `PrivateConfigError` carrying the key, the referencing
config file, the expected companion private file and the underlying
error, and its rendered message names both files.  (ii)/(iii) every
other interpolation failure (no extractable key, or a key outside
`private.`) propagates unchanged, preserving the underlying error. -/
theorem claim8_private_interpolation_error (cf msg k : String) (pe : Bool) :
    (OmegaConfigLoader.extractKey msg = some k →
      OmegaConfigLoader.keyStartsWithPrivate k = true →
      OmegaConfigLoader.loadRawResolve cf pe (Except.error msg)
          = Except.error (OmegaConfigLoader.LoadError.privateConfig k cf
              (OmegaConfigLoader.privateNameOf cf) pe msg) ∧
        containsStr
          (OmegaConfigLoader.privateConfigMessage k cf
            (OmegaConfigLoader.privateNameOf cf) pe) cf ∧
        containsStr
          (OmegaConfigLoader.privateConfigMessage k cf
            (OmegaConfigLoader.privateNameOf cf) pe)
          (OmegaConfigLoader.privateNameOf cf)) ∧
    (OmegaConfigLoader.extractKey msg = Option.none →
      OmegaConfigLoader.loadRawResolve cf pe (Except.error msg)
        = Except.error (OmegaConfigLoader.LoadError.interpolation msg)) ∧
    (OmegaConfigLoader.extractKey msg = some k →
      OmegaConfigLoader.keyStartsWithPrivate k = false →
      OmegaConfigLoader.loadRawResolve cf pe (Except.error msg)
        = Except.error (OmegaConfigLoader.LoadError.interpolation msg)) := by
  refine ⟨?_, ?_, ?_⟩
  · intro h1 h2
    refine ⟨?_, ?_, ?_⟩
    · simp only [OmegaConfigLoader.loadRawResolve, h1, h2, if_true]
    · refine ⟨"Config '",
        "' references private key '" ++ k ++ "', but '" ++
          OmegaConfigLoader.privateNameOf cf ++ "' " ++
          (if pe then "is missing key" else "was not found") ++
          ". Create or update '" ++ OmegaConfigLoader.privateNameOf cf ++
          "' with the required private keys.", ?_⟩
      apply String.ext
      simp [OmegaConfigLoader.privateConfigMessage, String.data_append,
        List.append_assoc]
    · refine ⟨"Config '" ++ cf ++ "' references private key '" ++ k ++
          "', but '",
        "' " ++ (if pe then "is missing key" else "was not found") ++
          ". Create or update '" ++ OmegaConfigLoader.privateNameOf cf ++
          "' with the required private keys.", ?_⟩
      apply String.ext
      simp [OmegaConfigLoader.privateConfigMessage, String.data_append,
        List.append_assoc]
  · intro h1
    simp only [OmegaConfigLoader.loadRawResolve, h1]
  · intro h1 h2
    simp only [OmegaConfigLoader.loadRawResolve, h1, h2, if_false,
      Bool.false_eq_true]

/-- C8 witness: the missing-companion-file scenario, at the message
OmegaConf emits for `${private.secrets.api_key}`. -/
theorem claim8_private_interpolation_error_witness :
    OmegaConfigLoader.loadRawResolve "config.yaml" false
        (Except.error "Interpolation key 'private.secrets.api_key' not found")
      = Except.error (OmegaConfigLoader.LoadError.privateConfig
          "private.secrets.api_key" "config.yaml" "config_private.yaml" false
          "Interpolation key 'private.secrets.api_key' not found") :=
  ((claim8_private_interpolation_error "config.yaml"
      "Interpolation key 'private.secrets.api_key' not found"
      "private.secrets.api_key" false).1 rfl rfl).1

lemma getCell_setCell (h : Heap) (r : Nat) (c : List HValue)
    (hr : r < h.length) : getCell (setCell h r c) r = c := by
  simp only [getCell, setCell]
  rw [List.getD_eq_getElem?_getD, List.getElem?_set_self' ]
  simp [List.getElem?_eq_getElem hr]

lemma length_setCell (h : Heap) (r : Nat) (c : List HValue) :
    (setCell h r c).length = h.length := List.length_set h r c

/-- One full heap-level resolution with a first contribution `listRef r`
and a second contribution `w` under APPEND: the engine returns the same
reference and extends cell `r` in place. -/
lemma resolveBindH_two_providers (p1 p2 : ProviderH) (b : BindH)
    (bd : List (String × HValue)) (k1 k2 : String) (w : HValue)
    (es : List HValue) (r : Nat)
    (hact : b.action = some "append") (hconv : b.converter = Option.none)
    (hk1 : p1.bindKeyFn b = some k1) (hg1 : p1.getFn k1 = HValue.listRef r)
    (hk2 : p2.bindKeyFn b = some k2) (hg2 : p2.getFn k2 = w)
    (hw : contribElems w = some es) (h : Heap) :
    resolveBindH h [p1, p2] bd b
      = (HValue.listRef r, setCell h r (getCell h r ++ es)) := by
  cases w with
  | none => exact absurd hw (by simp [contribElems])
  | defaulted v => exact absurd hw (by simp [contribElems])
  | listRef rv => exact absurd hw (by simp [contribElems])
  | listConfig xs =>
    have hes : es = xs := by
      simpa [contribElems] using hw.symm
    subst hes
    simp [resolveBindH, resolveLoopH, hk1, hg1, hk2, hg2, hact, hconv,
      applyFallbacksH, convertH]
  | bool x =>
    have hes : es = [HValue.bool x] := by
      simpa [contribElems] using hw.symm
    subst hes
    simp [resolveBindH, resolveLoopH, hk1, hg1, hk2, hg2, hact, hconv,
      applyFallbacksH, convertH]
  | int x =>
    have hes : es = [HValue.int x] := by
      simpa [contribElems] using hw.symm
    subst hes
    simp [resolveBindH, resolveLoopH, hk1, hg1, hk2, hg2, hact, hconv,
      applyFallbacksH, convertH]
  | str x =>
    have hes : es = [HValue.str x] := by
      simpa [contribElems] using hw.symm
    subst hes
    simp [resolveBindH, resolveLoopH, hk1, hg1, hk2, hg2, hact, hconv,
      applyFallbacksH, convertH]

/-- C10: in APPEND mode, with a first contributing source handing out the
plain-list object `listRef r` and a second source contributing `w`, the
resolution result IS that very list object (not a fresh list), the
source's list cell has been extended in place with `w`'s elements, and a
second read of the property appends them to that same cell again. -/
theorem claim10_append_mutates_provider_list
    (hp : Heap) (r : Nat) (k1 k2 : String) (p1 p2 : ProviderH) (b : BindH)
    (bd : List (String × HValue)) (w : HValue) (es : List HValue)
    (hr : r < hp.length)
    (hact : b.action = some "append") (hconv : b.converter = Option.none)
    (hk1 : p1.bindKeyFn b = some k1) (hg1 : p1.getFn k1 = HValue.listRef r)
    (hk2 : p2.bindKeyFn b = some k2) (hg2 : p2.getFn k2 = w)
    (hw : contribElems w = some es) :
    (resolveBindH hp [p1, p2] bd b).1 = HValue.listRef r ∧
    getCell (resolveBindH hp [p1, p2] bd b).2 r = getCell hp r ++ es ∧
    getCell (resolveBindH (resolveBindH hp [p1, p2] bd b).2 [p1, p2] bd b).2 r
      = (getCell hp r ++ es) ++ es := by
  have h1 := resolveBindH_two_providers p1 p2 b bd k1 k2 w es r hact hconv
    hk1 hg1 hk2 hg2 hw hp
  have hcell : getCell (resolveBindH hp [p1, p2] bd b).2 r
      = getCell hp r ++ es := by
    rw [h1]
    exact getCell_setCell hp r _ hr
  refine ⟨by rw [h1], hcell, ?_⟩
  have hr2 : r < (resolveBindH hp [p1, p2] bd b).2.length := by
    rw [h1]
    simpa [length_setCell] using hr
  have h2 := resolveBindH_two_providers p1 p2 b bd k1 k2 w es r hact hconv
    hk1 hg1 hk2 hg2 hw (resolveBindH hp [p1, p2] bd b).2
  rw [h2, getCell_setCell _ r _ hr2, hcell]

/-- Heap-level bind `items = Bind("extra", arg_key="items",
action="append")`. -/
def itemsBindH : BindH :=
  { config_path := "extra", arg_key := some "items",
    property_name := some "items", action := some "append",
    converter := Option.none, default := HValue.none }

/-- Heap-level provider holding the plain list object in cell 0. -/
def argListProviderH : ProviderH :=
  { bindKeyFn := fun _ => some "items", getFn := fun _ => HValue.listRef 0 }

/-- Heap-level store provider contributing `ListConfig [from_config]`. -/
def storeListProviderH : ProviderH :=
  { bindKeyFn := fun _ => some "extra",
    getFn := fun _ => HValue.listConfig [HValue.str "from_config"] }

/-- C10 witness: with the heap `[[from_arg]]`, one resolution extends the
provider's list object to `[from_arg, from_config]` and returns that very
object; a second read appends `from_config` again. -/
theorem claim10_append_mutates_provider_list_witness :
    (resolveBindH [[HValue.str "from_arg"]]
        [argListProviderH, storeListProviderH] [] itemsBindH).1
      = HValue.listRef 0 ∧
    getCell (resolveBindH [[HValue.str "from_arg"]]
        [argListProviderH, storeListProviderH] [] itemsBindH).2 0
      = [HValue.str "from_arg", HValue.str "from_config"] ∧
    getCell (resolveBindH
        (resolveBindH [[HValue.str "from_arg"]]
          [argListProviderH, storeListProviderH] [] itemsBindH).2
        [argListProviderH, storeListProviderH] [] itemsBindH).2 0
      = [HValue.str "from_arg", HValue.str "from_config",
         HValue.str "from_config"] := by
  have h := claim10_append_mutates_provider_list [[HValue.str "from_arg"]] 0
    "items" "extra" argListProviderH storeListProviderH itemsBindH []
    (HValue.listConfig [HValue.str "from_config"]) [HValue.str "from_config"]
    (by decide) rfl rfl rfl rfl rfl rfl rfl
  exact ⟨h.1, h.2.1.trans rfl, h.2.2.trans rfl⟩

end Appconf
